import Mathlib

/-!
# NeuralMatRendering: model catalog, quantization and pipeline properties

A shallow embedding of `Source/RenderPasses/NeuralMatRendering/NeuralMatRendering.h`.
The header declares the `ModelName` enumeration, the `ModelInfo` record, and the
`NeuralMatRendering` render pass with its default member initialisers, among them the
four-entry model catalog `mModelInfo`.

Floating-point literals are read as the exact decimal rationals they spell.
-/

namespace NeuralMat

/-! ## Data model (from the header) -/

/-- The enumeration `enum class ModelName : uint32_t`, enumerators in declaration order. -/
inductive ModelName where
  | LEATHER11
  | WEAVE
  | TILE
  | CERAMIC_TILE
  deriving DecidableEq, Repr, Fintype

namespace ModelName

/-- The underlying `uint32_t` value of an enumerator: no enumerator has an explicit
initialiser, so the values count up from zero in declaration order. -/
def toUInt32 : ModelName → Nat
  | LEATHER11 => 0
  | WEAVE => 1
  | TILE => 2
  | CERAMIC_TILE => 3

/-- The enumerators in declaration order. -/
def enumerators : List ModelName := [LEATHER11, WEAVE, TILE, CERAMIC_TILE]

/-- The display strings registered by `FALCOR_ENUM_INFO(ModelName, ...)`. -/
def enumInfo : List (ModelName × String) :=
  [(LEATHER11, "UBO Leather11"),
   (WEAVE, "Weave"),
   (TILE, "Tile"),
   (CERAMIC_TILE, "Ceramic Tile")]

end ModelName

/-- The record `struct ModelInfo`. The member `float scales[8]` is kept as the list of
initialisers given for it, each read as an exact rational. -/
structure ModelInfo where
  name : String
  hfName : String
  HDRBTF : Bool
  scales : List ℚ
  deriving DecidableEq

/-- The default member initialiser of `ModelInfo mModelInfo[4]`. -/
def mModelInfo : List ModelInfo :=
  [ { name := "leather11_int8"
      hfName := "leather11.png"
      HDRBTF := false
      scales :=
        [0.003400295041501522,
         1.1354546586517245e-05,
         0.0024283595848828554,
         1.047514069796307e-05,
         0.0021721271332353354,
         1.9848570445901714e-05,
         0.0016346105840057135,
         1.605643228685949e-05] },
    { name := "weave_int8"
      hfName := "weave.jpg"
      HDRBTF := false
      scales :=
        [0.002025123918429017,
         7.385711796814576e-06,
         0.0017646728083491325,
         1.3128001228324138e-05,
         0.0012104109628126025,
         1.130689270212315e-05,
         0.001690503559075296,
         2.1813480998389423e-05] },
    { name := "tile2_int8"
      hfName := "tile2.png"
      HDRBTF := true
      scales :=
        [0.0021086351480334997,
         6.1559362620755564e-06,
         0.0015336197102442384,
         5.158955445949687e-06,
         0.0009424724266864359,
         4.815707598027075e-06,
         0.0011210687225684524,
         6.463145837187767e-06] },
    { name := "tile_int8"
      hfName := "tile.jpg"
      HDRBTF := true
      scales :=
        [0.0025666167493909597,
         7.262530743901152e-06,
         0.0012831123312935233,
         4.6556156121368986e-06,
         0.0010884717339649796,
         5.779493676527636e-06,
         0.000891408184543252,
         4.09871927331551e-06] } ]

/-- The plain-data members of `class NeuralMatRendering` that carry a default member
initialiser in the header. Handles to device objects (`ref<...>`, smart pointers, CUDA
events) have no value-level initialiser and are left out. -/
structure NeuralMatRendering where
  mFrameCount : Nat := 0
  mOptionsChanged : Bool := false
  mModelName : ModelName := ModelName.LEATHER11
  mModelInfo : List ModelInfo := NeuralMat.mModelInfo
  mControlParas : ℚ × ℚ × ℚ × ℚ := (0.1, 10, 0, 0.099)
  mApplySyn : Bool := true
  mShowTracedHF : Bool := false
  mTracedShadowRay : Bool := true
  mHDRBTF : Bool := false
  mEnvRotAngle : ℚ × ℚ × ℚ := (0.0, 0.0, 0.0)
  mCudaTime : ℚ := 0.0
  mCudaAvgTime : ℚ := 0.0
  cudaInferTimes : Int := 1
  mCudaAccumulatedFrames : Nat := 1

/-- The state of a pass whose members all hold their default initialisers. -/
def initialState : NeuralMatRendering := {}

/-- The catalog lookup `mModelInfo[(uint32_t) m]`, as a bounds-checked read. -/
def lookupModelInfo (m : ModelName) : Option ModelInfo :=
  mModelInfo[m.toUInt32]?

/-! ## Quantization

The header only names the buffers (`mpPackedInputBuffer`, `mpScaleBuffer`); the
quantization arithmetic is described by the design document. -/

/-- Modelled from the spec: the rule that turns the linearly mapped value into an
integer. The packing kernel is not part of the header and the design document does not
fix the rule, so every usual one is covered. -/
inductive Rounding where
  | down
  | up
  | nearest
  | towardZero
  deriving DecidableEq, Repr

/-- Modelled from the spec: the integer chosen by a rounding rule (the packing kernel is
not part of the header). -/
def Rounding.apply : Rounding → ℚ → ℤ
  | Rounding.down, y => Int.floor y
  | Rounding.up, y => Int.ceil y
  | Rounding.nearest, y => round y
  | Rounding.towardZero, y => if 0 ≤ y then Int.floor y else Int.ceil y

/-- Modelled from the spec: clamping into the target integer range `[lo, hi]` (the
packing kernel is not part of the header). -/
def clampInt (lo hi q : ℤ) : ℤ := max lo (min hi q)

/-- Modelled from the spec: the quantizer of the feature packer, which is not part of
the header: "components are linearly mapped to the target integer range and clamped".
The component `x` is divided by the scale `s`, rounded, and clamped into `[lo, hi]`. -/
def quantize (r : Rounding) (lo hi : ℤ) (s x : ℚ) : ℤ :=
  clampInt lo hi (r.apply (x / s))

/-- Modelled from the spec: the inverse linear map used by the inference kernel, which
is not part of the header: the integer payload times the scale. -/
def dequantize (s : ℚ) (q : ℤ) : ℚ := (q : ℚ) * s

/-- Modelled from the spec: the representable domain of a scale `s` for the target range
`[lo, hi]`: the values between the dequantized ends of the range. -/
def inDomain (lo hi : ℤ) (s x : ℚ) : Prop :=
  dequantize s lo ≤ x ∧ x ≤ dequantize s hi

instance (lo hi : ℤ) (s x : ℚ) : Decidable (inDomain lo hi s x) :=
  inferInstanceAs (Decidable (_ ∧ _))

/-- The signed 8-bit range suggested by the catalog names (`..._int8`). -/
def int8Min : ℤ := -128

/-- The signed 8-bit range suggested by the catalog names (`..._int8`). -/
def int8Max : ℤ := 127

/-! ## Feature packing -/

/-- Modelled from the spec: the per-pixel record written by the ray-tracing stage (its
layout lives in shader code that is not part of the header): a validity bit and the
feature components. -/
structure ShadingFeatureRecord where
  valid : Bool
  components : List ℚ
  deriving DecidableEq

/-- Modelled from the spec: one fixed-stride entry of the packed input buffer, together
with the number of scale lookups spent on producing it. -/
structure PackedEntry where
  payload : List ℤ
  scaleLookups : Nat
  deriving DecidableEq, Repr

/-- Modelled from the spec: the parameters of the packer that the design document
leaves configurable: the stride of a packed entry, the target integer range, the
rounding rule, the assignment of a scale index to each component, and the coordinate
transform (projection and optional texture synthesis) applied to valid records. -/
structure PackerConfig where
  stride : Nat
  lo : ℤ
  hi : ℤ
  rounding : Rounding
  layout : Nat → Nat
  transform : List ℚ → List ℚ

/-- Modelled from the spec: the feature packer for one record (the packing kernel is not
part of the header): "for each valid record ... quantizes each feature component using
the per-component scale pairs from ModelInfo"; "Invalid records are packed as zero
without consuming a scale lookup." -/
def packRecord (cfg : PackerConfig) (scales : List ℚ) (r : ShadingFeatureRecord) :
    PackedEntry :=
  if r.valid then
    let xs := cfg.transform r.components
    { payload := (List.range cfg.stride).map fun i =>
        quantize cfg.rounding cfg.lo cfg.hi (scales.getD (cfg.layout i) 0) (xs.getD i 0)
      scaleLookups := cfg.stride }
  else
    { payload := List.replicate cfg.stride 0
      scaleLookups := 0 }

/-- Modelled from the spec: packing a whole feature buffer, one entry per pixel (the
packing kernel is not part of the header). -/
def packBuffer (cfg : PackerConfig) (scales : List ℚ) (rs : List ShadingFeatureRecord) :
    List PackedEntry :=
  rs.map (packRecord cfg scales)

/-! ## Pipeline cycle and model switching -/

/-- Modelled from the spec: the phases of the pipeline-level state machine
`Idle → Tracing → Packing → Inferring → Compositing → Idle` (the body of `execute` is
not part of the header). -/
inductive Phase where
  | Idle
  | Tracing
  | Packing
  | Inferring
  | Compositing
  deriving DecidableEq, Repr

/-- Modelled from the spec: the successor phase in the cycle. -/
def Phase.next : Phase → Phase
  | Phase.Idle => Phase.Tracing
  | Phase.Tracing => Phase.Packing
  | Phase.Packing => Phase.Inferring
  | Phase.Inferring => Phase.Compositing
  | Phase.Compositing => Phase.Idle

/-- Modelled from the spec: how many phase transitions lead from a phase back to
`Idle`, that is, to the end of the frame in progress. -/
def Phase.advancesToIdle : Phase → Nat
  | Phase.Idle => 0
  | Phase.Tracing => 4
  | Phase.Packing => 3
  | Phase.Inferring => 2
  | Phase.Compositing => 1

/-- Modelled from the spec: the pipeline state as far as model selection goes: the
phase, the model the stages use (`mModelName`), and the latched switch request. -/
structure Pipeline where
  phase : Phase
  mModelName : ModelName
  requested : ModelName
  deriving DecidableEq, Repr

/-- Modelled from the spec: what can happen to the pipeline: the cycle moves on by one
phase, or the control surface asks for another model. -/
inductive Event where
  | advance
  | request (m : ModelName)
  deriving DecidableEq, Repr

/-- Modelled from the spec: one step of the pipeline (the body of `execute` is not part
of the header): "A model switch request is latched and applied at the start of the next
`Idle → Tracing` transition, never mid-cycle". -/
def Pipeline.step (p : Pipeline) : Event → Pipeline
  | Event.request m => { p with requested := m }
  | Event.advance =>
    match p.phase with
    | Phase.Idle => { phase := Phase.Tracing, mModelName := p.requested, requested := p.requested }
    | ph => { p with phase := ph.next }

/-- Modelled from the spec: a run of the pipeline over a sequence of events. -/
def Pipeline.run (p : Pipeline) (es : List Event) : Pipeline :=
  es.foldl Pipeline.step p

/-- The number of phase transitions in a sequence of events. -/
def advanceCount (es : List Event) : Nat :=
  es.count Event.advance

/-- The pipeline a freshly constructed pass starts in: idle, with the default model both
active and requested. -/
def Pipeline.initial : Pipeline :=
  { phase := Phase.Idle
    mModelName := initialState.mModelName
    requested := initialState.mModelName }

/-! ## Model registry and loading -/

/-- Modelled from the spec: the quantized weight tensors of one model (class `NBTF` is
not part of the header); only their values matter here. -/
abbrev Weights := List ℤ

/-- Modelled from the spec: what the weights asset of a catalog entry turns out to be
when it is fetched. -/
inductive Asset where
  | missing
  | malformed
  | wellFormed (w : Weights)
  deriving DecidableEq, Repr

/-- Modelled from the spec: the asset errors of the error taxonomy. -/
inductive LoadError where
  | missingAsset
  | malformedAsset
  deriving DecidableEq, Repr

/-- Modelled from the spec: the registry state: the active model (`mModelName`) and the
weights resident on the device for each catalog entry (`mpNBTF[4]`). -/
structure Registry where
  mModelName : ModelName
  mpNBTF : ModelName → Option Weights

/-- Modelled from the spec: the scales that accompany the active model: those of its
catalog entry. -/
def Registry.activeScales (r : Registry) : Option (List ℚ) :=
  (lookupModelInfo r.mModelName).map ModelInfo.scales

/-- Modelled from the spec: the active model can be evaluated when its weights are
resident. -/
def Registry.usable (r : Registry) : Bool :=
  (r.mpNBTF r.mModelName).isSome

/-- Modelled from the spec: `loadNetwork` (declared in the header, body not part of it)
"fetches and uploads them before first inference, producing a fatal load error if the
backing asset is missing or malformed". The result is the registry after the call and
the error reported, if any. -/
def loadNetwork (assets : ModelName → Asset) (id : ModelName) (r : Registry) :
    Registry × Option LoadError :=
  match assets id with
  | Asset.missing => (r, some LoadError.missingAsset)
  | Asset.malformed => (r, some LoadError.malformedAsset)
  | Asset.wellFormed w =>
    ({ r with mpNBTF := fun m => if m = id then some w else r.mpNBTF m }, none)

/-- Modelled from the spec: `selectModel(id)` "switches the active model; if weights for
`id` are not yet resident, `loadNetwork` fetches and uploads them"; a switch that fails
to load leaves the registry as it was. -/
def selectModel (assets : ModelName → Asset) (id : ModelName) (r : Registry) :
    Registry × Option LoadError :=
  match r.mpNBTF id with
  | some _ => ({ r with mModelName := id }, none)
  | none =>
    match loadNetwork assets id r with
    | (r1, none) => ({ r1 with mModelName := id }, none)
    | (r1, some e) => (r1, some e)

/-! ## The model catalog -/

/-- Every entry of the catalog is one of the four initialisers, named by its index. -/
theorem mem_mModelInfo_iff (e : ModelInfo) :
    e ∈ mModelInfo ↔ ∃ m : ModelName, lookupModelInfo m = some e := by
  constructor
  · intro h
    simp only [mModelInfo, List.mem_cons, List.mem_singleton, List.not_mem_nil, or_false] at h
    rcases h with h | h | h | h
    · exact ⟨ModelName.LEATHER11, by rw [h]; rfl⟩
    · exact ⟨ModelName.WEAVE, by rw [h]; rfl⟩
    · exact ⟨ModelName.TILE, by rw [h]; rfl⟩
    · exact ⟨ModelName.CERAMIC_TILE, by rw [h]; rfl⟩
  · rintro ⟨m, hm⟩
    exact List.getElem?_mem hm

/-- Claim C1: the enumeration `ModelName` has exactly the four enumerators
LEATHER11, WEAVE, TILE, CERAMIC_TILE with underlying values 0, 1, 2, 3; the catalog
`mModelInfo` has exactly four entries; for every enumerator the catalog lookup at its
underlying value is in bounds and returns an entry; and every catalog index is the
underlying value of some enumerator. -/
theorem modelName_lookup_in_bounds :
    Fintype.card ModelName = 4 ∧
    (∀ m : ModelName, m ∈ ModelName.enumerators) ∧
    ModelName.enumerators.map ModelName.toUInt32 = [0, 1, 2, 3] ∧
    mModelInfo.length = 4 ∧
    (∀ m : ModelName, m.toUInt32 < mModelInfo.length ∧
      ∃ e : ModelInfo, lookupModelInfo m = some e ∧ e ∈ mModelInfo) ∧
    (∀ i : Fin mModelInfo.length, ∃ m : ModelName,
      m.toUInt32 = i.val ∧ lookupModelInfo m = some (mModelInfo.get i)) := by
  refine ⟨rfl, ?_, rfl, rfl, ?_, ?_⟩
  · intro m
    cases m <;> simp [ModelName.enumerators]
  · intro m
    cases m
    · exact ⟨by decide, _, rfl, List.getElem?_mem (show mModelInfo[0]? = some _ from rfl)⟩
    · exact ⟨by decide, _, rfl, List.getElem?_mem (show mModelInfo[1]? = some _ from rfl)⟩
    · exact ⟨by decide, _, rfl, List.getElem?_mem (show mModelInfo[2]? = some _ from rfl)⟩
    · exact ⟨by decide, _, rfl, List.getElem?_mem (show mModelInfo[3]? = some _ from rfl)⟩
  · intro i
    have hlen : mModelInfo.length = 4 := rfl
    obtain ⟨i, hi⟩ := i
    have hi4 : i < 4 := hlen ▸ hi
    interval_cases i
    · exact ⟨ModelName.LEATHER11, rfl, rfl⟩
    · exact ⟨ModelName.WEAVE, rfl, rfl⟩
    · exact ⟨ModelName.TILE, rfl, rfl⟩
    · exact ⟨ModelName.CERAMIC_TILE, rfl, rfl⟩

/-- Claim C2: every entry of the catalog `mModelInfo` carries exactly 8 quantization
scales. -/
theorem mModelInfo_scales_length (e : ModelInfo) (he : e ∈ mModelInfo) :
    e.scales.length = 8 := by
  simp only [mModelInfo, List.mem_cons, List.mem_singleton, List.not_mem_nil, or_false] at he
  rcases he with h | h | h | h <;> rw [h] <;> rfl

/-- Witness for claim C2 at the catalog entry of `TILE`. -/
theorem mModelInfo_scales_length_witness :
    ∃ e : ModelInfo, lookupModelInfo ModelName.TILE = some e ∧ e.scales.length = 8 :=
  ⟨_, rfl, mModelInfo_scales_length _ (List.getElem?_mem (show mModelInfo[2]? = some _ from rfl))⟩

/-- The names of the catalog entries, in catalog order, are pairwise different. -/
theorem mModelInfo_names_nodup : (mModelInfo.map ModelInfo.name).Nodup := by
  simp [mModelInfo]

/-- Claim C3: catalog entries are identified by their name: two entries of
`mModelInfo` at distinct indices have different names, and two entries of the catalog
with the same name are the same entry. -/
theorem mModelInfo_name_identifies :
    (∀ i j : Fin mModelInfo.length, i ≠ j →
      (mModelInfo.get i).name ≠ (mModelInfo.get j).name) ∧
    (∀ e1 ∈ mModelInfo, ∀ e2 ∈ mModelInfo, e1.name = e2.name → e1 = e2) := by
  constructor
  · intro i j hij hname
    apply hij
    have hinj := List.nodup_iff_injective_get.mp mModelInfo_names_nodup
    have hlen : (mModelInfo.map ModelInfo.name).length = mModelInfo.length := by simp
    have := @hinj ⟨i.val, by rw [hlen]; exact i.isLt⟩ ⟨j.val, by rw [hlen]; exact j.isLt⟩
      (by simpa using hname)
    simpa using this
  · intro e1 h1 e2 h2 hname
    exact List.inj_on_of_nodup_map mModelInfo_names_nodup h1 h2 hname

/-- Witness for claim C3: the entries of `LEATHER11` and `CERAMIC_TILE` have different
names. -/
theorem mModelInfo_name_identifies_witness :
    "leather11_int8" ≠ "tile_int8" :=
  mModelInfo_name_identifies.1 ⟨0, by decide⟩ ⟨3, by decide⟩ (by decide)

/-- Every scale of every catalog entry is strictly positive and below one. -/
theorem scale_pos_lt_one (e : ModelInfo) (he : e ∈ mModelInfo) (s : ℚ) (hs : s ∈ e.scales) :
    0 < s ∧ s < 1 := by
  simp only [mModelInfo, List.mem_cons, List.mem_singleton, List.not_mem_nil, or_false] at he
  rcases he with h | h | h | h <;> subst h <;>
    simp only [List.mem_cons, List.mem_singleton, List.not_mem_nil, or_false] at hs <;>
    rcases hs with h | h | h | h | h | h | h | h <;> subst h <;> norm_num

/-- Claim C9: reading the scale literals as exact decimal rationals, in every catalog
entry the scales at positions `2i` and `2i+1` (for `i` in 0..3) exist and satisfy
`0 < scales[2i+1] < scales[2i] < 1`; in particular all scales are strictly positive and
below one. -/
theorem mModelInfo_scale_pairs (e : ModelInfo) (he : e ∈ mModelInfo) :
    (∀ i : Fin 4, ∃ a b : ℚ, e.scales[2 * i.val]? = some a ∧
      e.scales[2 * i.val + 1]? = some b ∧ 0 < b ∧ b < a ∧ a < 1) ∧
    (∀ s ∈ e.scales, 0 < s ∧ s < 1) := by
  refine ⟨?_, scale_pos_lt_one e he⟩
  simp only [mModelInfo, List.mem_cons, List.mem_singleton, List.not_mem_nil, or_false] at he
  intro i
  rcases he with h | h | h | h <;> subst h <;> fin_cases i <;>
    exact ⟨_, _, rfl, rfl, by norm_num, by norm_num, by norm_num⟩

/-- Witness for claim C9 at the catalog entry of `WEAVE`. -/
theorem mModelInfo_scale_pairs_witness :
    ∃ e : ModelInfo, lookupModelInfo ModelName.WEAVE = some e ∧
      (∀ i : Fin 4, ∃ a b : ℚ, e.scales[2 * i.val]? = some a ∧
        e.scales[2 * i.val + 1]? = some b ∧ 0 < b ∧ b < a ∧ a < 1) ∧
      (∀ s ∈ e.scales, 0 < s ∧ s < 1) :=
  ⟨_, rfl, mModelInfo_scale_pairs _ (List.getElem?_mem (show mModelInfo[1]? = some _ from rfl))⟩

/-- Claim C10: in the initial state of the pass the active model is `LEATHER11`, the
flag `mHDRBTF` is false, and it equals the `HDRBTF` flag of the catalog entry of the
active model, which is false as well. -/
theorem initial_mHDRBTF_matches_catalog :
    initialState.mModelName = ModelName.LEATHER11 ∧
    initialState.mHDRBTF = false ∧
    ∃ e : ModelInfo,
      initialState.mModelInfo[initialState.mModelName.toUInt32]? = some e ∧
      e.HDRBTF = false ∧ initialState.mHDRBTF = e.HDRBTF :=
  ⟨rfl, rfl, _, rfl, rfl, rfl⟩

/-! ## Quantization -/

/-- Every rounding rule moves a value by less than one unit. -/
theorem Rounding.abs_apply_sub_lt (r : Rounding) (y : ℚ) : |((r.apply y : ℤ) : ℚ) - y| < 1 := by
  have hf1 := Int.floor_le y
  have hf2 := Int.lt_floor_add_one y
  have hc1 := Int.le_ceil y
  have hc2 := Int.ceil_lt_add_one y
  rw [abs_lt]
  cases r
  · simp only [Rounding.apply]
    constructor <;> linarith
  · simp only [Rounding.apply]
    constructor <;> linarith
  · simp only [Rounding.apply]
    have h := abs_sub_round y
    rw [abs_le] at h
    constructor <;> linarith [h.1, h.2]
  · simp only [Rounding.apply]
    split_ifs <;> constructor <;> linarith

/-- A rounding rule never goes below an integer that the value is not below. -/
theorem Rounding.le_apply (r : Rounding) (lo : ℤ) (y : ℚ) (h : (lo : ℚ) ≤ y) :
    lo ≤ r.apply y := by
  have hfloor : lo ≤ Int.floor y := Int.le_floor.mpr h
  have hceil : lo ≤ Int.ceil y := by
    have : (lo : ℚ) ≤ (Int.ceil y : ℚ) := le_trans h (Int.le_ceil y)
    exact_mod_cast this
  cases r
  · exact hfloor
  · exact hceil
  · simp only [Rounding.apply]
    rw [round_eq]
    exact Int.le_floor.mpr (by linarith)
  · simp only [Rounding.apply]
    split_ifs
    · exact hfloor
    · exact hceil

/-- A rounding rule never goes above an integer that the value is not above. -/
theorem Rounding.apply_le (r : Rounding) (hi : ℤ) (y : ℚ) (h : y ≤ (hi : ℚ)) :
    r.apply y ≤ hi := by
  have hfloor : Int.floor y ≤ hi := by
    have : (Int.floor y : ℚ) ≤ (hi : ℚ) := le_trans (Int.floor_le y) h
    exact_mod_cast this
  have hceil : Int.ceil y ≤ hi := Int.ceil_le.mpr h
  cases r
  · exact hfloor
  · exact hceil
  · simp only [Rounding.apply]
    rw [round_eq]
    have : Int.floor (y + 1 / 2) < hi + 1 := by
      rw [Int.floor_lt]
      push_cast
      linarith
    omega
  · simp only [Rounding.apply]
    split_ifs
    · exact hfloor
    · exact hceil

/-- Clamping leaves a value of the range alone. -/
theorem clampInt_of_mem (lo hi q : ℤ) (h1 : lo ≤ q) (h2 : q ≤ hi) : clampInt lo hi q = q := by
  simp [clampInt, h1, h2]

/-- Clamping lands in the range. -/
theorem clampInt_mem (lo hi q : ℤ) (h : lo ≤ hi) :
    lo ≤ clampInt lo hi q ∧ clampInt lo hi q ≤ hi := by
  unfold clampInt
  constructor
  · exact le_max_left _ _
  · exact max_le h (min_le_left _ _)

/-- Claim C4: for every catalog entry, every one of its scales `s`, every rounding rule
and target range, and every input `x` within the representable domain of `s`,
quantizing and then dequantizing gives a value within one quantization step of `x`. -/
theorem quantize_dequantize_roundtrip (e : ModelInfo) (he : e ∈ mModelInfo) (s : ℚ)
    (hs : s ∈ e.scales) (r : Rounding) (lo hi : ℤ) (x : ℚ) (hx : inDomain lo hi s x) :
    |dequantize s (quantize r lo hi s x) - x| ≤ s := by
  obtain ⟨hpos, -⟩ := scale_pos_lt_one e he s hs
  obtain ⟨hlo, hhi⟩ := hx
  simp only [dequantize] at hlo hhi
  have hylo : (lo : ℚ) ≤ x / s := (le_div_iff₀ hpos).mpr hlo
  have hyhi : x / s ≤ (hi : ℚ) := (div_le_iff₀ hpos).mpr hhi
  have hq : quantize r lo hi s x = r.apply (x / s) :=
    clampInt_of_mem lo hi _ (r.le_apply lo _ hylo) (r.apply_le hi _ hyhi)
  have herr := r.abs_apply_sub_lt (x / s)
  have hx : x = x / s * s := by field_simp
  rw [hq, dequantize]
  calc |((r.apply (x / s) : ℤ) : ℚ) * s - x|
      = |(((r.apply (x / s) : ℤ) : ℚ) - x / s) * s| := by
        congr 1
        rw [sub_mul, ← hx]
    _ = |((r.apply (x / s) : ℤ) : ℚ) - x / s| * s := by
        rw [abs_mul, abs_of_pos hpos]
    _ ≤ 1 * s := by
        exact mul_le_mul_of_nonneg_right herr.le hpos.le
    _ = s := one_mul s

/-- Witness for claim C4: the first scale of the `LEATHER11` entry, rounding to nearest
into the signed 8-bit range, at the input `0.1`. -/
theorem quantize_dequantize_roundtrip_witness :
    inDomain int8Min int8Max 0.003400295041501522 0.1 ∧
    |dequantize 0.003400295041501522
        (quantize Rounding.nearest int8Min int8Max 0.003400295041501522 0.1) - 0.1|
      ≤ 0.003400295041501522 :=
  ⟨by norm_num [inDomain, dequantize, int8Min, int8Max],
   quantize_dequantize_roundtrip _
    (List.getElem?_mem (show mModelInfo[0]? = some _ from rfl)) _
    (List.getElem?_mem (show ([0.003400295041501522,
         1.1354546586517245e-05,
         0.0024283595848828554,
         1.047514069796307e-05,
         0.0021721271332353354,
         1.9848570445901714e-05,
         0.0016346105840057135,
         1.605643228685949e-05] : List ℚ)[0]? = some _ from rfl))
    Rounding.nearest int8Min int8Max 0.1
    (by norm_num [inDomain, dequantize, int8Min, int8Max])⟩

/-- Claim C5: for every catalog scale `s`, every rounding rule, every non-empty target
range `[lo, hi]` and every input `x` whatsoever, the quantized value lies in
`[lo, hi]`; an input above the domain of `s` maps to `hi` and an input below it maps to
`lo`. The quantizer is a total function, so it has a value at every input. -/
theorem quantize_clamped (e : ModelInfo) (he : e ∈ mModelInfo) (s : ℚ)
    (hs : s ∈ e.scales) (r : Rounding) (lo hi : ℤ) (hrange : lo ≤ hi) (x : ℚ) :
    (lo ≤ quantize r lo hi s x ∧ quantize r lo hi s x ≤ hi) ∧
    (dequantize s hi < x → quantize r lo hi s x = hi) ∧
    (x < dequantize s lo → quantize r lo hi s x = lo) := by
  obtain ⟨hpos, -⟩ := scale_pos_lt_one e he s hs
  refine ⟨clampInt_mem lo hi _ hrange, ?_, ?_⟩
  · intro h
    simp only [dequantize] at h
    have hy : (hi : ℚ) ≤ x / s := ((lt_div_iff₀ hpos).mpr h).le
    have := r.le_apply hi _ hy
    simp only [quantize, clampInt]
    rw [min_eq_left this, max_eq_right hrange]
  · intro h
    simp only [dequantize] at h
    have hy : x / s ≤ (lo : ℚ) := ((div_lt_iff₀ hpos).mpr h).le
    have := r.apply_le lo _ hy
    simp only [quantize, clampInt]
    exact max_eq_left (le_trans (min_le_right _ _) this)

/-- Witness for claim C5: the second scale of the `TILE` entry, rounding down into the
signed 8-bit range, at an input far above the domain. -/
theorem quantize_clamped_witness :
    int8Min ≤ int8Max ∧
    dequantize 6.1559362620755564e-06 int8Max < 5 ∧
    quantize Rounding.down int8Min int8Max 6.1559362620755564e-06 5 = int8Max :=
  ⟨by decide, by norm_num [dequantize, int8Max],
   (quantize_clamped _
    (List.getElem?_mem (show mModelInfo[2]? = some _ from rfl)) _
    (List.getElem?_mem (show ([0.0021086351480334997,
          6.1559362620755564e-06,
          0.0015336197102442384,
          5.158955445949687e-06,
          0.0009424724266864359,
          4.815707598027075e-06,
          0.0011210687225684524,
          6.463145837187767e-06] : List ℚ)[1]? = some _ from rfl))
    Rounding.down int8Min int8Max (by decide) 5).2.1
    (by norm_num [dequantize, int8Max])⟩

/-! ## Pipeline cycle and model switching -/

/-- A switch request changes neither the phase nor the model in use. -/
theorem Pipeline.step_request (p : Pipeline) (m : ModelName) :
    (p.step (Event.request m)).mModelName = p.mModelName ∧
    (p.step (Event.request m)).phase = p.phase ∧
    (p.step (Event.request m)).requested = m :=
  ⟨rfl, rfl, rfl⟩

/-- A phase transition inside a frame keeps the model and the latched request, and
brings the end of the frame one transition closer. -/
theorem Pipeline.step_advance_in_frame (p : Pipeline) (h : p.phase ≠ Phase.Idle) :
    (p.step Event.advance).mModelName = p.mModelName ∧
    (p.step Event.advance).requested = p.requested ∧
    (p.step Event.advance).phase = p.phase.next ∧
    (p.step Event.advance).phase.advancesToIdle + 1 = p.phase.advancesToIdle := by
  obtain ⟨ph, a, rq⟩ := p
  cases ph
  · exact absurd rfl h
  all_goals exact ⟨rfl, rfl, rfl, rfl⟩

/-- As long as a run does not contain more phase transitions than lead to the end of the
frame in progress, the model in use stays the same. -/
theorem Pipeline.run_keeps_model (es : List Event) :
    ∀ p : Pipeline, advanceCount es ≤ p.phase.advancesToIdle →
      (p.run es).mModelName = p.mModelName := by
  induction es with
  | nil => intro p _; rfl
  | cons ev es ih =>
    intro p h
    have hrun : p.run (ev :: es) = (p.step ev).run es := rfl
    rw [hrun]
    cases ev with
    | advance =>
      have hc : advanceCount (Event.advance :: es) = advanceCount es + 1 := by
        simp [advanceCount]
      rw [hc] at h
      have hph : p.phase ≠ Phase.Idle := by
        intro h0
        rw [h0] at h
        simp [Phase.advancesToIdle] at h
      obtain ⟨h1, -, -, h4⟩ := p.step_advance_in_frame hph
      rw [ih (p.step Event.advance) (by omega), h1]
    | request m =>
      have hc : advanceCount (Event.request m :: es) = advanceCount es := by
        simp [advanceCount]
      rw [hc] at h
      exact ih (p.step (Event.request m)) h

/-- Running the remaining phase transitions of a frame, with no further request, ends
in `Idle` with the model and the latched request as they were. -/
theorem Pipeline.run_to_idle (p : Pipeline) :
    (p.run (List.replicate p.phase.advancesToIdle Event.advance)).phase = Phase.Idle ∧
    (p.run (List.replicate p.phase.advancesToIdle Event.advance)).mModelName = p.mModelName ∧
    (p.run (List.replicate p.phase.advancesToIdle Event.advance)).requested = p.requested := by
  obtain ⟨ph, a, rq⟩ := p
  cases ph <;> exact ⟨rfl, rfl, rfl⟩

/-- Claim C6: a model switch is latched. In every state of the pipeline cycle
(a) a switch request changes neither the phase nor the model in use;
(b) over any run of events that stays within the frame in progress, whatever requests
it contains, the model in use does not change, so it is the same from Tracing through
Compositing;
(c) a step changes the model in use only if it is the `Idle → Tracing` transition, and
the model then becomes the latched request;
(d) after a request for `m`, finishing the frame leaves the old model in use, and the
next `Idle → Tracing` transition makes `m` the model in use. -/
theorem model_switch_latched (p : Pipeline) :
    (∀ m : ModelName, (p.step (Event.request m)).mModelName = p.mModelName ∧
      (p.step (Event.request m)).phase = p.phase) ∧
    (∀ es : List Event, advanceCount es ≤ p.phase.advancesToIdle →
      (p.run es).mModelName = p.mModelName) ∧
    (∀ ev : Event, (p.step ev).mModelName ≠ p.mModelName →
      ev = Event.advance ∧ p.phase = Phase.Idle ∧ (p.step ev).phase = Phase.Tracing ∧
      (p.step ev).mModelName = p.requested) ∧
    (∀ m : ModelName,
      ((p.step (Event.request m)).run
          (List.replicate p.phase.advancesToIdle Event.advance)).phase = Phase.Idle ∧
      ((p.step (Event.request m)).run
          (List.replicate p.phase.advancesToIdle Event.advance)).mModelName = p.mModelName ∧
      ((p.step (Event.request m)).run
          (List.replicate (p.phase.advancesToIdle + 1) Event.advance)).phase
        = Phase.Tracing ∧
      ((p.step (Event.request m)).run
          (List.replicate (p.phase.advancesToIdle + 1) Event.advance)).mModelName = m) := by
  refine ⟨fun m => ⟨rfl, rfl⟩, fun es h => Pipeline.run_keeps_model es p h, ?_, ?_⟩
  · intro ev hne
    cases ev with
    | request m => exact absurd rfl hne
    | advance =>
      by_cases hph : p.phase = Phase.Idle
      · obtain ⟨ph, a, rq⟩ := p
        simp only at hph
        subst hph
        exact ⟨rfl, rfl, rfl, rfl⟩
      · exact absurd (p.step_advance_in_frame hph).1 hne
  · intro m
    obtain ⟨ph, a, rq⟩ := p
    cases ph <;> exact ⟨rfl, rfl, rfl, rfl⟩

/-- Witness for claim C6: a frame is in `Packing` with `WEAVE` in use; requests for
`TILE` and `CERAMIC_TILE` arrive while the frame runs on to `Compositing`. -/
theorem model_switch_latched_witness :
    (Pipeline.run ⟨Phase.Packing, ModelName.WEAVE, ModelName.WEAVE⟩
      [Event.request ModelName.TILE, Event.advance, Event.request ModelName.CERAMIC_TILE,
       Event.advance]).mModelName = ModelName.WEAVE :=
  (model_switch_latched ⟨Phase.Packing, ModelName.WEAVE, ModelName.WEAVE⟩).2.1
    [Event.request ModelName.TILE, Event.advance, Event.request ModelName.CERAMIC_TILE,
     Event.advance] (by decide)

/-! ## Model registry and loading -/

/-- Claim C7: a model switch whose load fails is atomic. For every registry state and
every requested model whose weights asset is missing or malformed, `loadNetwork`
reports a load error and returns the registry it was given; a switch to that model,
when its weights are not resident, reports the error too; and the previously active
model keeps its identity, its resident weights and its scales, and is usable if it was
usable before. -/
theorem failed_load_is_atomic (assets : ModelName → Asset) (id : ModelName) (r : Registry)
    (h : assets id = Asset.missing ∨ assets id = Asset.malformed) :
    (∃ err : LoadError, loadNetwork assets id r = (r, some err)) ∧
    (r.mpNBTF id = none → ∃ err : LoadError, selectModel assets id r = (r, some err)) ∧
    (loadNetwork assets id r).1.mModelName = r.mModelName ∧
    (loadNetwork assets id r).1.mpNBTF r.mModelName = r.mpNBTF r.mModelName ∧
    (loadNetwork assets id r).1.activeScales = r.activeScales ∧
    (r.usable = true → (loadNetwork assets id r).1.usable = true) := by
  have hload : ∃ err : LoadError, loadNetwork assets id r = (r, some err) := by
    rcases h with h | h
    · exact ⟨LoadError.missingAsset, by simp [loadNetwork, h]⟩
    · exact ⟨LoadError.malformedAsset, by simp [loadNetwork, h]⟩
  obtain ⟨err, herr⟩ := hload
  refine ⟨⟨err, herr⟩, ?_, ?_, ?_, ?_, ?_⟩
  · intro hres
    exact ⟨err, by simp [selectModel, hres, herr]⟩
  all_goals rw [herr]
  exact fun hu => hu

/-- Witness for claim C7: `WEAVE` is active and resident, the asset of `TILE` is
missing, and `TILE` is requested. -/
theorem failed_load_is_atomic_witness :
    ∃ err : LoadError,
      loadNetwork (fun _ => Asset.missing) ModelName.TILE
        ⟨ModelName.WEAVE, fun m => if m = ModelName.WEAVE then some [1, -2, 3] else none⟩
      = (⟨ModelName.WEAVE, fun m => if m = ModelName.WEAVE then some [1, -2, 3] else none⟩,
         some err) :=
  (failed_load_is_atomic (fun _ => Asset.missing) ModelName.TILE
    ⟨ModelName.WEAVE, fun m => if m = ModelName.WEAVE then some [1, -2, 3] else none⟩
    (Or.inl rfl)).1

/-! ## Feature packing -/

/-- Claim C8: for every feature record whose validity bit is cleared, the packer writes
an all-zero entry of the fixed stride, spends no scale lookup on it, and gives the same
entry whatever the scales are; in a packed buffer the pixel of such a record holds
that zero entry, and the buffer has one entry per record. -/
theorem invalid_record_packed_as_zero (cfg : PackerConfig) (scales : List ℚ)
    (r : ShadingFeatureRecord) (h : r.valid = false) :
    packRecord cfg scales r = ⟨List.replicate cfg.stride 0, 0⟩ ∧
    (∀ q ∈ (packRecord cfg scales r).payload, q = 0) ∧
    (packRecord cfg scales r).payload.length = cfg.stride ∧
    (packRecord cfg scales r).scaleLookups = 0 ∧
    (∀ scales2 : List ℚ, packRecord cfg scales2 r = packRecord cfg scales r) ∧
    (∀ (rs : List ShadingFeatureRecord) (i : Nat), rs[i]? = some r →
      (packBuffer cfg scales rs)[i]? = some ⟨List.replicate cfg.stride 0, 0⟩ ∧
      (packBuffer cfg scales rs).length = rs.length) := by
  have hz : ∀ sc : List ℚ, packRecord cfg sc r = ⟨List.replicate cfg.stride 0, 0⟩ := by
    intro sc
    simp [packRecord, h]
  refine ⟨hz scales, ?_, ?_, ?_, ?_, ?_⟩
  · rw [hz scales]
    intro q hq
    exact (List.mem_replicate.mp hq).2
  · rw [hz scales]
    simp
  · rw [hz scales]
  · intro sc
    rw [hz sc, hz scales]
  · intro rs i hi
    constructor
    · simp [packBuffer, hi, hz scales]
    · simp [packBuffer]

/-- Witness for claim C8: a miss record packed with stride 3 under the scales of the
`LEATHER11` entry. -/
theorem invalid_record_packed_as_zero_witness :
    packRecord ⟨3, int8Min, int8Max, Rounding.nearest, fun i => i % 8, fun xs => xs⟩
      [0.003400295041501522, 1.1354546586517245e-05] ⟨false, [0, 0, 0]⟩
    = ⟨[0, 0, 0], 0⟩ :=
  (invalid_record_packed_as_zero
    ⟨3, int8Min, int8Max, Rounding.nearest, fun i => i % 8, fun xs => xs⟩
    [0.003400295041501522, 1.1354546586517245e-05] ⟨false, [0, 0, 0]⟩ rfl).1

end NeuralMat
